import Mathlib

/-!
Verification development for `soundcraft/setup.py` (soundcraft-utils).

The Python module is shallowly embedded: pure helpers become Lean functions,
the mutable `SudoScript` accumulator and the filesystem become explicit state
that is threaded through the functions, and exceptions raised by the OS
(`PermissionError`, `FileNotFoundError`) are driven by explicit outcome
values.  Definitions follow the source code of `soundcraft/setup.py`;
definitions whose names start with `spec` restate the natural-language
specification for comparison.
-/

namespace Soundcraft

/-! ## Python-flavoured primitives

`PyPath` models `pathlib.Path` (POSIX flavour) as its tuple of parts, e.g.
`Path("/out/a.txt").parts == ("/", "out", "a.txt")`.  String splitting and
comparison helpers are implemented structurally on `List Char` so that they
compute inside the kernel.
-/

/-- Split a character list at every occurrence of `sep` (like
`str.split(sep)` in Python: `n` separators yield `n+1` groups). -/
def splitOnChar (sep : Char) : List Char → List (List Char)
  | [] => [[]]
  | c :: rest =>
    if c = sep then [] :: splitOnChar sep rest
    else
      match splitOnChar sep rest with
      | [] => [[c]]
      | g :: gs => (c :: g) :: gs

/-- Python `str.splitlines()` for strings whose only line separator is
`"\n"`: split on newlines, with no entry for a trailing newline. -/
def pySplitlines (s : String) : List String :=
  let l := (splitOnChar (Char.ofNat 10) s.data).map String.mk
  if l.getLast? = some "" then l.dropLast else l

/-- Python string comparison orders by Unicode code point. -/
def pyCharLt (a b : Char) : Bool := a.toNat < b.toNat

/-- Python comparison of sequences (`str`, `tuple`, `list`): compare
element-wise, first difference decides; a strict prefix is smaller. -/
def lexLt {α : Type} [DecidableEq α] (ltA : α → α → Bool) : List α → List α → Bool
  | [], [] => false
  | [], _ :: _ => true
  | _ :: _, [] => false
  | a :: as, b :: bs => if a = b then lexLt ltA as bs else ltA a b

/-- Python `str.__lt__`. -/
def pyStrLt (a b : String) : Bool := lexLt pyCharLt a.data b.data

/-- A `pathlib.Path`, represented by its `parts` tuple (root `"/"` first
for absolute paths). -/
structure PyPath where
  parts : List String
deriving DecidableEq

namespace PyPath

/-- `Path(s)`: parse a path string into its parts (empty and `"."`
components disappear, absolute paths keep the leading `"/"`). -/
def ofString (s : String) : PyPath :=
  let comps := ((splitOnChar '/' s.data).map String.mk).filter
    (fun c => c ≠ "" && c ≠ ".")
  match s.data with
  | '/' :: _ => ⟨"/" :: comps⟩
  | _ => ⟨comps⟩

/-- `str(Path(...))`. -/
def str : PyPath → String
  | ⟨[]⟩ => "."
  | ⟨"/" :: rest⟩ => "/" ++ String.intercalate "/" rest
  | ⟨l⟩ => String.intercalate "/" l

/-- `Path.is_absolute()`. -/
def isAbsolute (p : PyPath) : Bool := p.parts.headD "" = "/"

/-- `Path.parent`: drop the last component, keeping the root. -/
def parent : PyPath → PyPath
  | ⟨[]⟩ => ⟨[]⟩
  | ⟨["/"]⟩ => ⟨["/"]⟩
  | ⟨[_]⟩ => ⟨[]⟩
  | ⟨l⟩ => ⟨l.dropLast⟩

/-- `Path.absolute()`: an absolute path is returned unchanged, a relative
one is anchored at the current working directory. -/
def absolute (cwd : PyPath) (p : PyPath) : PyPath :=
  if p.isAbsolute then p else ⟨cwd.parts ++ p.parts⟩

end PyPath

/-! ## `ScriptCommand` and `SudoScript`

`SudoScript` only ever appends to its command list; it is modelled by that
list, threaded explicitly through every function that may `add_cmd`.
-/

/-- `ScriptCommand.__init__`: a single shell command for the sudo script. -/
structure ScriptCommand where
  cmd : String
  skip_if : Bool
  comment : Option String
deriving DecidableEq

/-- Truthiness of the optional `comment` attribute (`None` and `""` are
falsy in Python). -/
def pyTruthy : Option String → Bool
  | none => false
  | some s => s ≠ ""

/-- `ScriptCommand.write(file)`: the file object is modelled as an
accumulated output string, each `file.write(...)` appends to it. -/
def ScriptCommand.write (c : ScriptCommand) (file : String) : String :=
  let file := file ++ "\n"
  let file := if pyTruthy c.comment then file ++ "# " ++ c.comment.getD "" ++ "\n" else file
  if c.skip_if then
    let file := file ++ "# [command skipped (not required)]\n"
    (pySplitlines c.cmd).foldl (fun acc line => acc ++ "# " ++ line ++ "\n") file
  else
    file ++ c.cmd ++ "\n"

/-- The state of the `SudoScript` accumulator: its `sudo_commands` list. -/
abbrev SudoScript := List ScriptCommand

/-- `SudoScript.add_cmd(cmd, skip_if, comment)`: append one command
(the printing to stdout is not modelled). -/
def SudoScript.add_cmd (s : SudoScript) (cmd : String) (skip_if : Bool)
    (comment : Option String) : SudoScript :=
  s ++ [⟨cmd, skip_if, comment⟩]

/-- `SudoScript.needs_to_run()`: the loop skips every command with
`skip_if` and returns `True` at the first remaining command. -/
def SudoScript.needs_to_run : SudoScript → Bool
  | [] => false
  | c :: rest => if c.skip_if then SudoScript.needs_to_run rest else true

/-- `SudoScript.write(file)`: render the whole script into the (string-
modelled) file.  `base_exe_setup` stands for `const.BASE_EXE_SETUP` from
`soundcraft.constants`, which only supplies the installer's program name. -/
def SudoScript.write (base_exe_setup : String) (s : SudoScript) (file : String) : String :=
  let file := file ++ "#!/bin/sh\n"
  let file := file ++ "# This script contains commands which " ++ base_exe_setup ++
    " could not run.\n"
  let file := file ++ "# You might have better luck running them manually, probably via sudo.\n"
  if s.length > 0 then
    s.foldl (fun acc c => c.write acc) file
  else
    file ++ "\n# No commands to run.\n"

/-! ## Filesystem state and OS outcomes

Install and uninstall touch the real filesystem and may raise
`PermissionError` / `FileNotFoundError`.  The filesystem is modelled as a
finite map from path strings to file contents; whether an individual OS
call raises is decided by explicit outcome values (`InstallOutcome`,
`permission_denied`), mirroring the `try`/`except` structure of the code.
-/

/-- The exception classes distinguished by `setup.py`. -/
inductive PyErr
  | permissionError
  | fileNotFoundError
  | otherOSError
deriving DecidableEq

/-- Filesystem contents: association list from path string to text. -/
abbrev FS := List (String × String)

/-- Contents of the file at path `p`, if present. -/
def fsRead : FS → String → Option String
  | [], _ => none
  | kv :: rest, p => if kv.1 = p then some kv.2 else fsRead rest p

/-- Remove the file at path `p` (directories are not tracked, so this can
only ever affect the single file at `p`). -/
def fsErase : FS → String → FS
  | [], _ => []
  | kv :: rest, p => if kv.1 = p then fsErase rest p else kv :: fsErase rest p

/-- Overwrite (or create) the file at path `p`. -/
def fsWrite (fs : FS) (p : String) (content : String) : FS :=
  (p, content) :: fsErase fs p

/-- Ambient process state: `get_dirs().chroot` and the working directory
used by `Path.absolute()`. -/
structure Env where
  chroot : Option String
  cwd : PyPath

/-! ## `AbstractFile` and its variants

`AbstractFile` with subclasses `CopyFile`, `StringToFile` and
`TemplateFile` is a closed hierarchy, modelled as an inductive type.  A
`TemplateFile` carries its substituted `content` (computed in
`TemplateFile.__init__`, see `TemplateFile.new` below).
-/

inductive InstFile
  | copyFile (dst src : PyPath) (comment : Option String)
  | stringToFile (dst : PyPath) (content : String) (comment : Option String)
  | templateFile (dst src : PyPath) (content : String) (comment : Option String)
deriving DecidableEq

namespace InstFile

/-- The `dst` property (destination `Path`, not chrooted). -/
def dst : InstFile → PyPath
  | copyFile d _ _ => d
  | stringToFile d _ _ => d
  | templateFile d _ _ _ => d

/-- `self.__class__.__name__`. -/
def className : InstFile → String
  | copyFile _ _ _ => "CopyFile"
  | stringToFile _ _ _ => "StringToFile"
  | templateFile _ _ _ _ => "TemplateFile"

/-- The comment passed to `__init__`. -/
def rawComment : InstFile → Option String
  | copyFile _ _ c => c
  | stringToFile _ _ c => c
  | templateFile _ _ _ c => c

/-- `AbstractFile.__str__`: `f"{self.__class__.__name__}:{self.dst}"`. -/
def str (f : InstFile) : String := f.className ++ ":" ++ f.dst.str

/-- The `comment` property: the stored comment if truthy, else the
synthetic `f"{self}"` description. -/
def commentText (f : InstFile) : String :=
  match f.rawComment with
  | some s => if s = "" then f.str else s
  | none => f.str

/-- The text `direct_install()` places at the destination:
`CopyFile` copies the source file's bytes (`shutil.copy2`), the other two
variants write their stored `content` string. -/
def installedText (fs : FS) : InstFile → Option String
  | copyFile _ src _ => fsRead fs src.str
  | stringToFile _ content _ => some content
  | templateFile _ _ content _ => some content

end InstFile

/-- `AbstractFile.chroot_dst`: destination `Path`, chrooted if the active
`get_dirs().chroot` is truthy, recomputed from the environment on every
access. -/
def chroot_dst (e : Env) (f : InstFile) : PyPath :=
  match e.chroot with
  | some c => if c = "" then f.dst else PyPath.ofString (c ++ f.dst.str)
  | none => f.dst

/-- `shell_install(self)`: the deferred shell fragment equivalent to
`direct_install`. -/
def shell_install (e : Env) : InstFile → String
  | .copyFile dst src _ =>
      String.intercalate "\n"
        [ "mkdir -p " ++ (PyPath.absolute e.cwd dst.parent).str
        , "cp -p " ++ (PyPath.absolute e.cwd src).str ++ " " ++ dst.str ]
  | .stringToFile dst content _ =>
      String.intercalate "\n"
        (("cat>" ++ dst.str ++ "<<EOF") :: (pySplitlines content ++ ["EOF"]))
  | .templateFile dst _ content _ =>
      String.intercalate "\n"
        (("cat>" ++ dst.str ++ "<<EOF") :: (pySplitlines content ++ ["EOF"]))

/-- Outcome of the three OS calls attempted inside `AbstractFile._install`
(`mkdir`, the content write of `direct_install`, `chmod`); `none` means
the call succeeds.  A call is only reached when every earlier one
succeeded. -/
structure InstallOutcome where
  mkdirErr : Option PyErr
  writeErr : Option PyErr
  chmodErr : Option PyErr

/-- Result of an install or uninstall call: the new filesystem, the new
sudo-script state, and the exception propagated to the caller (if any). -/
structure InstResult where
  fs : FS
  script : SudoScript
  err : Option PyErr
deriving DecidableEq

namespace AbstractFile

/-- `AbstractFile._install`: try `mkdir`/`direct_install`/`chmod`; on
`PermissionError` from any of them, queue `shell_install()` on the shared
sudo script instead of raising. -/
def install (e : Env) (o : InstallOutcome) (f : InstFile) (fs : FS)
    (sc : SudoScript) : InstResult :=
  match o.mkdirErr with
  | some PyErr.permissionError =>
      ⟨fs, sc.add_cmd (shell_install e f) false (some f.commentText), none⟩
  | some err => ⟨fs, sc, some err⟩
  | none =>
    match o.writeErr with
    | some PyErr.permissionError =>
        ⟨fs, sc.add_cmd (shell_install e f) false (some f.commentText), none⟩
    | some err => ⟨fs, sc, some err⟩
    | none =>
      let fs1 := fsWrite fs (chroot_dst e f).str ((f.installedText fs).getD "")
      match o.chmodErr with
      | some PyErr.permissionError =>
          ⟨fs1, sc.add_cmd (shell_install e f) false (some f.commentText), none⟩
      | some err => ⟨fs1, sc, some err⟩
      | none => ⟨fs1, sc, none⟩

/-- Outcome of `Path.unlink()`: `PermissionError` when the process may not
delete at that location, `FileNotFoundError` when the file is absent. -/
def unlinkOutcome (permission_denied : Bool) (fs : FS) (p : String) : Option PyErr :=
  if permission_denied then some PyErr.permissionError
  else if fsRead fs p = none then some PyErr.fileNotFoundError
  else none

/-- `AbstractFile._uninstall`: unlink the destination file only; a missing
file queues a skippable `rm -f`, a permission failure a non-skippable one;
neither raises. -/
def uninstall (e : Env) (permission_denied : Bool) (f : InstFile) (fs : FS)
    (sc : SudoScript) : InstResult :=
  match unlinkOutcome permission_denied fs (chroot_dst e f).str with
  | none => ⟨fsErase fs (chroot_dst e f).str, sc, none⟩
  | some PyErr.fileNotFoundError =>
      ⟨fs, sc.add_cmd ("rm -f " ++ f.dst.str) true (some f.commentText), none⟩
  | some PyErr.permissionError =>
      ⟨fs, sc.add_cmd ("rm -f " ++ f.dst.str) false (some f.commentText), none⟩
  | some err => ⟨fs, sc, some err⟩

end AbstractFile

/-- `CopyFile.__init__(dst, src, comment)`.  The environment current at
construction time is taken as an argument to record that construction
reads nothing from it (in particular no chroot resolution is cached). -/
def CopyFile.new (_envAtConstruction : Env) (dst src : String)
    (comment : Option String) : InstFile :=
  InstFile.copyFile (PyPath.ofString dst) (PyPath.ofString src) comment

/-- `StringToFile.__init__(dst, content, comment)`; as with `CopyFile.new`
the construction-time environment is an unused argument. -/
def StringToFile.new (_envAtConstruction : Env) (dst : String) (content : String)
    (comment : Option String) : InstFile :=
  InstFile.stringToFile (PyPath.ofString dst) content comment

/-! ## `FileSetup`: natural path ordering

`FileSetup.install` iterates `sorted(self.files, key=FileSetup.destfile_key)`
and `uninstall` the same with `reverse=True`.  `destfile_key` splits each
path component at digit boundaries (`destfile_key_re`) and renders every
digit run through `int_as_str` (`"%08d" % int(run)`).
-/

/-- `FileSetup.destfile_key_re.split`: cut a path component at every
boundary between a digit and a non-digit (`re.split` on a zero-width
pattern returns `[""]` for the empty string). -/
def runsAux : List Char → List (List Char)
  | [] => []
  | c :: rest =>
    match runsAux rest with
    | (d :: g) :: gs =>
        if c.isDigit = d.isDigit then (c :: d :: g) :: gs
        else [c] :: (d :: g) :: gs
    | gs => [c] :: gs

/-- String-level wrapper for `destfile_key_re.split`: since the pattern
is a capturing group matching the empty string at each boundary,
`re.split` also returns an empty capture between adjacent runs. -/
def splitRuns (s : String) : List String :=
  if s = "" then [""] else ((runsAux s.data).map String.mk).intersperse ""

/-- Decimal value of a big-endian digit list. -/
def ofDigitsBE (l : List Nat) : Nat := l.foldl (fun a d => 10 * a + d) 0

/-- Numeric value of a decimal digit character. -/
def charVal (c : Char) : Nat := c.toNat - 48

/-- Python `int(thing)` as used on the pieces produced by
`destfile_key_re.split`: such a piece is a valid integer literal exactly
when it is a non-empty run of decimal digits. -/
def pyInt (t : String) : Option Nat :=
  if t ≠ "" && t.data.all Char.isDigit then
    some (ofDigitsBE (t.data.map charVal))
  else none

/-- Big-endian decimal digits of `n` (empty for `0`); the first argument
is recursion fuel, sufficient whenever `n ≤ fuel`. -/
def decDigits : Nat → Nat → List Nat
  | 0, _ => []
  | fuel + 1, n => if n = 0 then [] else decDigits fuel (n / 10) ++ [n % 10]

/-- The character for a decimal digit value. -/
def digitChar : Nat → Char
  | 0 => '0' | 1 => '1' | 2 => '2' | 3 => '3' | 4 => '4'
  | 5 => '5' | 6 => '6' | 7 => '7' | 8 => '8' | 9 => '9'
  | _ => '0'

/-- `"%08d" % n`: decimal rendering of `n`, left-padded with zeros to at
least eight characters (wider numbers are rendered in full). -/
def pad8 (n : Nat) : String :=
  let ds := (decDigits n n).map digitChar
  String.mk (List.replicate (8 - ds.length) '0' ++ ds)

/-- `FileSetup.int_as_str`: digit runs become fixed-width zero-padded
decimal strings, everything else is returned unchanged. -/
def int_as_str (t : String) : String :=
  match pyInt t with
  | some i => pad8 i
  | none => t

/-- `FileSetup.destfile_key`: the alphabetical/numerical hybrid sort key
of a file's (non-chrooted) destination path. -/
def destfile_key (f : InstFile) : List (List String) :=
  f.dst.parts.map (fun s => (splitRuns s).map int_as_str)

/-- Python's `<` on `destfile_key` values (tuple comparison over tuple
comparison over string comparison). -/
def keyLt (k1 k2 : List (List String)) : Bool := lexLt (lexLt pyStrLt) k1 k2

/-- `a` may precede `b` in `sorted(files, key=destfile_key)`:
the key of `b` is not smaller than the key of `a`. -/
def fileLe (a b : InstFile) : Prop := keyLt (destfile_key b) (destfile_key a) = false

instance : DecidableRel fileLe :=
  fun a b => inferInstanceAs (Decidable (keyLt (destfile_key b) (destfile_key a) = false))

/-- `a` may precede `b` in `sorted(files, key=destfile_key, reverse=True)`. -/
def fileGe (a b : InstFile) : Prop := keyLt (destfile_key a) (destfile_key b) = false

instance : DecidableRel fileGe :=
  fun a b => inferInstanceAs (Decidable (keyLt (destfile_key a) (destfile_key b) = false))

/-- The order in which `FileSetup.install` processes its files:
`sorted(self.files, key=FileSetup.destfile_key)` (a stable sort that is
nondecreasing in the key). -/
def installOrder (files : List InstFile) : List InstFile :=
  List.insertionSort fileLe files

/-- The order in which `FileSetup.uninstall` processes its files:
`sorted(self.files, key=FileSetup.destfile_key, reverse=True)`. -/
def uninstallOrder (files : List InstFile) : List InstFile :=
  List.insertionSort fileGe files

/-! ## `string.Template.substitute`

`TemplateFile.__init__` substitutes the template read from the source
file.  Unknown placeholders raise `KeyError`, a stray `$` raises
`ValueError`.  The recursion is fuelled; `substitute` supplies fuel larger
than the input length, which always suffices since every step consumes at
least one character.
-/

inductive SubstErr
  | keyError (name : String)
  | valueError
deriving DecidableEq

/-- First character class of `string.Template`'s `idpattern`. -/
def isIdStart (c : Char) : Bool := c.isAlpha || c = '_'

/-- Later character class of `string.Template`'s `idpattern`. -/
def isIdChar (c : Char) : Bool := c.isAlphanum || c = '_'

/-- Mapping lookup, `KeyError` signalled by `none`. -/
def lookupStr (k : String) (m : List (String × String)) : Option String :=
  (m.find? (fun kv => kv.1 = k)).map (fun kv => kv.2)

def substAux (m : List (String × String)) : Nat → List Char → Except SubstErr String
  | 0, _ => Except.ok ""
  | _ + 1, [] => Except.ok ""
  | fuel + 1, '$' :: rest =>
    match rest with
    | [] => Except.error SubstErr.valueError
    | '$' :: rest2 => (substAux m fuel rest2).map (fun s => "$" ++ s)
    | '{' :: rest2 =>
      let name := rest2.takeWhile isIdChar
      let rest3 := rest2.dropWhile isIdChar
      if name ≠ [] && isIdStart (name.headD ' ') then
        match rest3 with
        | '}' :: rest4 =>
          match lookupStr (String.mk name) m with
          | some v => (substAux m fuel rest4).map (fun s => v ++ s)
          | none => Except.error (SubstErr.keyError (String.mk name))
        | _ => Except.error SubstErr.valueError
      else Except.error SubstErr.valueError
    | c :: rest2 =>
      if isIdStart c then
        let name := (c :: rest2).takeWhile isIdChar
        let rest3 := (c :: rest2).dropWhile isIdChar
        match lookupStr (String.mk name) m with
        | some v => (substAux m fuel rest3).map (fun s => v ++ s)
        | none => Except.error (SubstErr.keyError (String.mk name))
      else Except.error SubstErr.valueError
  | fuel + 1, c :: rest => (substAux m fuel rest).map (fun s => String.mk [c] ++ s)

/-- `Template(s).substitute(m)`. -/
def substitute (s : String) (m : List (String × String)) : Except SubstErr String :=
  substAux m (s.data.length + 1) s.data

/-- `TemplateFile.__init__(dst, src, template_data, comment)`:
`srcText` is `self.src.read_text()`; the substituted content is stored,
and substitution errors propagate out of the constructor. -/
def TemplateFile.new (_envAtConstruction : Env) (dst src : String) (srcText : String)
    (template_data : List (String × String)) (comment : Option String) :
    Except SubstErr InstFile :=
  match substitute srcText template_data with
  | Except.ok content =>
      Except.ok (InstFile.templateFile (PyPath.ofString dst) (PyPath.ofString src)
        content comment)
  | Except.error e => Except.error e

/-! ## `SetupUdevRules`: the content-diff gate

The udev-rules subsystem snapshots the destination's content before the
file operation and queues the derived `udevadm trigger` command with
`skip_if = (new_content == old_content)`, a structural dict equality.
The product-id list from `soundcraft.constants` only feeds into the
command text and is passed through as the pre-joined string
`sh_list_of_product_ids`.
-/

/-- The state of a constructed `SetupUdevRules`: its `udev_rules_dst` and
`udev_rules_content` attributes. -/
structure UdevRules where
  udev_rules_dst : PyPath
  udev_rules_content : String

/-- The single `StringToFile` the constructor adds via `add_file`. -/
def UdevRules.file (u : UdevRules) : InstFile :=
  InstFile.stringToFile u.udev_rules_dst u.udev_rules_content
    (some "udev rules allowing non-root access to the USB device")

/-- The `udevadm trigger` loop emitted by `emit_code_for_rule_change`. -/
def triggerCmd (sh_list_of_product_ids : String) : String :=
  "for product_id in " ++ sh_list_of_product_ids ++
    "\ndo\n    udevadm trigger --verbose \\\n        --action=add --subsystem-match=usb \\\n        --attr-match=idVendor=05fc --attr-match=idProduct=$\x7bproduct_id\x7d\ndone"

/-- `SetupUdevRules.emit_code_for_rule_change(skip_if)`. -/
def emit_code_for_rule_change (sh_list_of_product_ids : String) (sc : SudoScript)
    (skip_if : Bool) : SudoScript :=
  sc.add_cmd (triggerCmd sh_list_of_product_ids) skip_if
    (some "Trigger udev rules which run when adding existing mixer devices")

/-- `SetupUdevRules.install`: snapshot `old_content`, run the (single
file) `FileSetup.install`, build `new_content` from the content that was
to be written, and gate the derived trigger on dict equality. -/
def SetupUdevRules.install (u : UdevRules) (sh_list_of_product_ids : String) (e : Env)
    (o : InstallOutcome) (fs : FS) (sc : SudoScript) : InstResult :=
  let old_content : List (PyPath × String) :=
    match fsRead fs u.udev_rules_dst.str with
    | some t => [(u.udev_rules_dst, t)]
    | none => []
  let r := AbstractFile.install e o u.file fs sc
  match r.err with
  | some err => ⟨r.fs, r.script, some err⟩
  | none =>
    let new_content : List (PyPath × String) := [(u.udev_rules_dst, u.udev_rules_content)]
    ⟨r.fs, emit_code_for_rule_change sh_list_of_product_ids r.script
      (decide (new_content = old_content)), none⟩

/-- `SetupUdevRules.uninstall`: the same gate with `new_content` being
`old_content` minus the removed path. -/
def SetupUdevRules.uninstall (u : UdevRules) (sh_list_of_product_ids : String) (e : Env)
    (permission_denied : Bool) (fs : FS) (sc : SudoScript) : InstResult :=
  let old_content : List (PyPath × String) :=
    match fsRead fs u.udev_rules_dst.str with
    | some t => [(u.udev_rules_dst, t)]
    | none => []
  let r := AbstractFile.uninstall e permission_denied u.file fs sc
  match r.err with
  | some err => ⟨r.fs, r.script, some err⟩
  | none =>
    let new_content := old_content.filter (fun kv => kv.1 ≠ u.udev_rules_dst)
    ⟨r.fs, emit_code_for_rule_change sh_list_of_product_ids r.script
      (decide (new_content = old_content)), none⟩

/-! ## Order-theoretic facts about Python sequence comparison

`lexLt ltA` is a strict weak order whenever the element comparison is; the
lemmas below establish this for characters, strings, and key tuples, so
that `sorted(...)` can be reasoned about through `List.insertionSort`.
-/

theorem lexLt_nil_right {α : Type} [DecidableEq α] (ltA : α → α → Bool) :
    ∀ l : List α, lexLt ltA l [] = false
  | [] => rfl
  | _ :: _ => rfl

theorem lexLt_irrefl {α : Type} [DecidableEq α] (ltA : α → α → Bool)
    (hirr : ∀ a, ltA a a = false) : ∀ l, lexLt ltA l l = false
  | [] => rfl
  | a :: as => by simp [lexLt, lexLt_irrefl ltA hirr as]

theorem lexLt_asymm {α : Type} [DecidableEq α] (ltA : α → α → Bool)
    (hasymm : ∀ a b, ltA a b = true → ltA b a = false) :
    ∀ l1 l2, lexLt ltA l1 l2 = true → lexLt ltA l2 l1 = false
  | [], [] => by simp [lexLt]
  | [], _ :: _ => fun _ => lexLt_nil_right ltA _
  | _ :: _, [] => by simp [lexLt]
  | a :: as, b :: bs => by
    by_cases hab : a = b
    · subst hab
      simp only [lexLt, if_pos rfl]
      exact lexLt_asymm ltA hasymm as bs
    · have hba : b ≠ a := fun e => hab e.symm
      simp only [lexLt, if_neg hab, if_neg hba]
      exact hasymm a b

theorem lexLt_trans {α : Type} [DecidableEq α] (ltA : α → α → Bool)
    (htrans : ∀ a b c, ltA a b = true → ltA b c = true → ltA a c = true)
    (hasymm : ∀ a b, ltA a b = true → ltA b a = false) :
    ∀ l1 l2 l3, lexLt ltA l1 l2 = true → lexLt ltA l2 l3 = true →
      lexLt ltA l1 l3 = true
  | _, l2, [] => by
    intro _ h2
    rw [lexLt_nil_right ltA l2] at h2
    exact absurd h2 (by simp)
  | [], [], _ :: _ => by simp [lexLt]
  | [], _ :: _, _ :: _ => by simp [lexLt]
  | _ :: _, [], _ :: _ => by simp [lexLt]
  | a :: as, b :: bs, c :: cs => by
    by_cases hab : a = b <;> by_cases hbc : b = c
    · subst hab; subst hbc
      simp only [lexLt, if_pos rfl]
      exact lexLt_trans ltA htrans hasymm as bs cs
    · subst hab
      simp only [lexLt, if_pos rfl, if_neg hbc]
      intro _ h2
      exact h2
    · subst hbc
      simp only [lexLt, if_neg hab]
      intro h1 _
      exact h1
    · simp only [lexLt, if_neg hab, if_neg hbc]
      intro h1 h2
      have hac : a ≠ c := by
        intro e
        subst e
        rw [hasymm a b h1] at h2
        exact absurd h2 (by simp)
      rw [if_neg hac]
      exact htrans a b c h1 h2

theorem lexLt_connex {α : Type} [DecidableEq α] (ltA : α → α → Bool)
    (hconn : ∀ a b, a ≠ b → ltA a b = true ∨ ltA b a = true) :
    ∀ l1 l2, l1 ≠ l2 → lexLt ltA l1 l2 = true ∨ lexLt ltA l2 l1 = true
  | [], [] => fun h => absurd rfl h
  | [], _ :: _ => fun _ => Or.inl rfl
  | _ :: _, [] => fun _ => Or.inr rfl
  | a :: as, b :: bs => by
    intro hne
    by_cases hab : a = b
    · subst hab
      have : as ≠ bs := fun e => hne (by rw [e])
      rcases lexLt_connex ltA hconn as bs this with h | h
      · exact Or.inl (by simpa [lexLt] using h)
      · exact Or.inr (by simpa [lexLt] using h)
    · have hba : b ≠ a := fun e => hab e.symm
      rcases hconn a b hab with h | h
      · exact Or.inl (by simp [lexLt, if_neg hab, h])
      · exact Or.inr (by simp [lexLt, if_neg hba, h])

theorem char_toNat_inj {a b : Char} (h : a.toNat = b.toNat) : a = b := by
  rw [← Char.ofNat_toNat a, ← Char.ofNat_toNat b, h]

theorem pyCharLt_irrefl (a : Char) : pyCharLt a a = false := by
  simp [pyCharLt]

theorem pyCharLt_asymm (a b : Char) (h : pyCharLt a b = true) : pyCharLt b a = false := by
  simp [pyCharLt] at h ⊢
  omega

theorem pyCharLt_trans (a b c : Char) (h1 : pyCharLt a b = true)
    (h2 : pyCharLt b c = true) : pyCharLt a c = true := by
  simp [pyCharLt] at h1 h2 ⊢
  omega

theorem pyCharLt_conn (a b : Char) (h : a ≠ b) :
    pyCharLt a b = true ∨ pyCharLt b a = true := by
  have hne : a.toNat ≠ b.toNat := fun e => h (char_toNat_inj e)
  simp [pyCharLt]
  omega

theorem pyStrLt_irrefl (s : String) : pyStrLt s s = false :=
  lexLt_irrefl pyCharLt pyCharLt_irrefl s.data

theorem pyStrLt_asymm (s t : String) (h : pyStrLt s t = true) : pyStrLt t s = false :=
  lexLt_asymm pyCharLt pyCharLt_asymm s.data t.data h

theorem pyStrLt_trans (s t u : String) (h1 : pyStrLt s t = true)
    (h2 : pyStrLt t u = true) : pyStrLt s u = true :=
  lexLt_trans pyCharLt pyCharLt_trans pyCharLt_asymm s.data t.data u.data h1 h2

theorem pyStrLt_conn (s t : String) (h : s ≠ t) :
    pyStrLt s t = true ∨ pyStrLt t s = true :=
  lexLt_connex pyCharLt pyCharLt_conn s.data t.data
    (fun e => h (by cases s; cases t; exact congrArg String.mk e))

theorem keyLt_irrefl (k : List (List String)) : keyLt k k = false :=
  lexLt_irrefl _ (fun a => lexLt_irrefl pyStrLt pyStrLt_irrefl a) k

theorem keyLt_asymm (k1 k2 : List (List String)) (h : keyLt k1 k2 = true) :
    keyLt k2 k1 = false :=
  lexLt_asymm _ (fun a b => lexLt_asymm pyStrLt pyStrLt_asymm a b) k1 k2 h

theorem keyLt_trans (k1 k2 k3 : List (List String)) (h1 : keyLt k1 k2 = true)
    (h2 : keyLt k2 k3 = true) : keyLt k1 k3 = true :=
  lexLt_trans _ (fun a b c => lexLt_trans pyStrLt pyStrLt_trans pyStrLt_asymm a b c)
    (fun a b => lexLt_asymm pyStrLt pyStrLt_asymm a b) k1 k2 k3 h1 h2

theorem keyLt_conn (k1 k2 : List (List String)) (h : k1 ≠ k2) :
    keyLt k1 k2 = true ∨ keyLt k2 k1 = true :=
  lexLt_connex _ (fun a b hab => lexLt_connex pyStrLt pyStrLt_conn a b hab) k1 k2 h

theorem keyLt_false_total (x y : List (List String)) :
    keyLt x y = false ∨ keyLt y x = false := by
  by_cases hxy : x = y
  · subst hxy
    exact Or.inl (keyLt_irrefl x)
  · rcases keyLt_conn x y hxy with h | h
    · exact Or.inr (keyLt_asymm x y h)
    · exact Or.inl (keyLt_asymm y x h)

theorem keyLt_false_trans (x y z : List (List String)) (h1 : keyLt x y = false)
    (h2 : keyLt y z = false) : keyLt x z = false := by
  by_cases hxz : keyLt x z = true
  · exfalso
    by_cases hxy : x = y
    · subst hxy
      rw [hxz] at h2
      exact absurd h2 (by simp)
    · by_cases hyz : y = z
      · subst hyz
        rw [hxz] at h1
        exact absurd h1 (by simp)
      · rcases keyLt_conn x y hxy with h | h
        · rw [h] at h1
          exact absurd h1 (by simp)
        · rcases keyLt_conn y z hyz with hg | hg
          · rw [hg] at h2
            exact absurd h2 (by simp)
          · have := keyLt_trans z y x hg h
            rw [keyLt_asymm x z hxz] at this
            exact absurd this (by simp)
  · exact Bool.eq_false_iff.mpr hxz

instance : IsTotal InstFile fileLe :=
  ⟨fun a b => keyLt_false_total (destfile_key b) (destfile_key a)⟩

instance : IsTrans InstFile fileLe :=
  ⟨fun a b c h1 h2 => keyLt_false_trans (destfile_key c) (destfile_key b)
    (destfile_key a) h2 h1⟩

instance : IsTotal InstFile fileGe :=
  ⟨fun a b => keyLt_false_total (destfile_key a) (destfile_key b)⟩

instance : IsTrans InstFile fileGe :=
  ⟨fun a b c h1 h2 => keyLt_false_trans (destfile_key a) (destfile_key b)
    (destfile_key c) h1 h2⟩

theorem installOrder_sorted (files : List InstFile) :
    List.Sorted fileLe (installOrder files) :=
  List.sorted_insertionSort fileLe files

theorem uninstallOrder_sorted (files : List InstFile) :
    List.Sorted fileGe (uninstallOrder files) :=
  List.sorted_insertionSort fileGe files

/-! ## Claim theorems -/

theorem needs_to_run_eq_any (sc : SudoScript) :
    sc.needs_to_run = sc.any (fun c => !c.skip_if) := by
  induction sc with
  | nil => rfl
  | cons c rest ih =>
    by_cases h : c.skip_if
    · simp [SudoScript.needs_to_run, h, ih]
    · simp [SudoScript.needs_to_run, h]

/-- C2: `DeferredScript.needs_to_run()` is true iff at least one contained
command has `skip_if = false` (so it is false for the empty script, and
appending a command with `skip_if = true` never changes its value). -/
theorem needs_to_run_iff_exists_nonskippable (sc : SudoScript) :
    (sc.needs_to_run = true ↔ ∃ c ∈ sc, c.skip_if = false)
    ∧ SudoScript.needs_to_run [] = false
    ∧ ∀ (cmd : String) (comment : Option String),
        (sc.add_cmd cmd true comment).needs_to_run = sc.needs_to_run := by
  refine ⟨?_, rfl, ?_⟩
  · rw [needs_to_run_eq_any]
    simp [List.any_eq_true]
  · intro cmd comment
    rw [SudoScript.add_cmd, needs_to_run_eq_any, needs_to_run_eq_any]
    simp

/-- C4: within one `FileSetup`, a file whose `destfile_key` is strictly
smaller is processed strictly earlier by `install()` and strictly later by
`uninstall()` (whose order is the reverse of the install order); the key
is numeric-aware, so `/a/file2` sorts before `/a/file10`. -/
theorem install_order_by_key (files : List InstFile) (f1 f2 : InstFile)
    (h : keyLt (destfile_key f1) (destfile_key f2) = true) :
    (∀ i j : Fin (installOrder files).length,
        (installOrder files).get i = f1 → (installOrder files).get j = f2 → i < j)
    ∧ (∀ i j : Fin (uninstallOrder files).length,
        (uninstallOrder files).get i = f1 → (uninstallOrder files).get j = f2 → j < i)
    ∧ keyLt (destfile_key (InstFile.stringToFile (PyPath.ofString "/a/file2") "" none))
        (destfile_key (InstFile.stringToFile (PyPath.ofString "/a/file10") "" none))
      = true := by
  refine ⟨?_, ?_, by decide⟩
  · intro i j hi hj
    rcases lt_trichotomy i j with hij | hij | hij
    · exact hij
    · exfalso
      have hf : f1 = f2 := by rw [← hi, ← hj, hij]
      rw [hf, keyLt_irrefl] at h
      exact absurd h (by simp)
    · exfalso
      have hs := (installOrder_sorted files).rel_get_of_lt hij
      rw [hi, hj] at hs
      simp only [fileLe] at hs
      rw [h] at hs
      exact absurd hs (by simp)
  · intro i j hi hj
    rcases lt_trichotomy j i with hij | hij | hij
    · exact hij
    · exfalso
      have hf : f1 = f2 := by rw [← hi, ← hj, hij]
      rw [hf, keyLt_irrefl] at h
      exact absurd h (by simp)
    · exfalso
      have hs := (uninstallOrder_sorted files).rel_get_of_lt hij
      rw [hi, hj] at hs
      simp only [fileGe] at hs
      rw [h] at hs
      exact absurd hs (by simp)

/-- Witness for C4: in the batch `[/a/file10, /a/file2]` the file
`/a/file2` is installed first. -/
theorem install_order_by_key_witness :
    keyLt (destfile_key (InstFile.stringToFile (PyPath.ofString "/a/file2") "" none))
      (destfile_key (InstFile.stringToFile (PyPath.ofString "/a/file10") "" none)) = true
    ∧ (⟨0, by decide⟩ : Fin (installOrder
        [InstFile.stringToFile (PyPath.ofString "/a/file10") "" none,
         InstFile.stringToFile (PyPath.ofString "/a/file2") "" none]).length)
      < ⟨1, by decide⟩ :=
  ⟨by decide,
    (install_order_by_key
      [InstFile.stringToFile (PyPath.ofString "/a/file10") "" none,
       InstFile.stringToFile (PyPath.ofString "/a/file2") "" none]
      (InstFile.stringToFile (PyPath.ofString "/a/file2") "" none)
      (InstFile.stringToFile (PyPath.ofString "/a/file10") "" none)
      (by decide)).1 ⟨0, by decide⟩ ⟨1, by decide⟩ (by decide) (by decide)⟩

/-- One of the three OS calls inside `_install`'s `try` block raises
`PermissionError` (each call is only reached when the earlier ones
succeeded). -/
def InstallOutcome.permFailure (o : InstallOutcome) : Prop :=
  o.mkdirErr = some PyErr.permissionError
  ∨ (o.mkdirErr = none ∧ o.writeErr = some PyErr.permissionError)
  ∨ (o.mkdirErr = none ∧ o.writeErr = none ∧ o.chmodErr = some PyErr.permissionError)

theorem needs_to_run_append_nonskip (sc : SudoScript) (cmd : String)
    (comment : Option String) :
    SudoScript.needs_to_run (sc ++ [⟨cmd, false, comment⟩]) = true := by
  rw [needs_to_run_eq_any]
  simp

theorem fsRead_fsWrite_self (fs : FS) (p c : String) :
    fsRead (fsWrite fs p c) p = some c := by
  simp [fsRead, fsWrite]

theorem fsRead_fsErase_self (fs : FS) (p : String) :
    fsRead (fsErase fs p) p = none := by
  induction fs with
  | nil => rfl
  | cons kv rest ih =>
    by_cases h : kv.1 = p
    · simpa [fsErase, h] using ih
    · simpa [fsErase, fsRead, h] using ih

theorem fsRead_fsErase_other (fs : FS) (p q : String) (h : q ≠ p) :
    fsRead (fsErase fs p) q = fsRead fs q := by
  induction fs with
  | nil => rfl
  | cons kv rest ih =>
    by_cases hp : kv.1 = p
    · have hpq : ¬(p = q) := fun e => h e.symm
      simpa [fsErase, fsRead, hp, hpq] using ih
    · by_cases hq : kv.1 = q
      · simp [fsErase, fsRead, hp, hq, h]
      · simpa [fsErase, fsRead, hp, hq] using ih

/-- C1: when `_install` hits a permission failure it does not raise;
exactly one non-skippable command whose text is `shell_install()` is
appended, tagged with the file's comment (synthetic variant+destination
description when none was given).  In the concrete
`CopyFile(dst="/out/a.txt", src="/in/a.txt")` scenario the fragment is
`"mkdir -p /out\ncp -p /in/a.txt /out/a.txt"`, the synthetic comment is
`"CopyFile:/out/a.txt"`, and `needs_to_run()` is true afterwards. -/
theorem install_perm_failure_defers (e : Env) (o : InstallOutcome) (f : InstFile)
    (fs : FS) (sc : SudoScript) (h : o.permFailure) :
    ((AbstractFile.install e o f fs sc).script
        = sc ++ [⟨shell_install e f, false, some f.commentText⟩]
      ∧ (AbstractFile.install e o f fs sc).err = none
      ∧ (AbstractFile.install e o f fs sc).script.needs_to_run = true)
    ∧ shell_install ⟨none, ⟨["/"]⟩⟩
        (InstFile.copyFile (PyPath.ofString "/out/a.txt") (PyPath.ofString "/in/a.txt") none)
      = "mkdir -p /out\ncp -p /in/a.txt /out/a.txt"
    ∧ (InstFile.copyFile (PyPath.ofString "/out/a.txt")
        (PyPath.ofString "/in/a.txt") none).commentText
      = "CopyFile:/out/a.txt" := by
  refine ⟨?_, by decide, by decide⟩
  rcases h with h1 | ⟨h1, h2⟩ | ⟨h1, h2, h3⟩
  · simp [AbstractFile.install, h1, SudoScript.add_cmd, needs_to_run_append_nonskip]
  · simp [AbstractFile.install, h1, h2, SudoScript.add_cmd, needs_to_run_append_nonskip]
  · simp [AbstractFile.install, h1, h2, h3, SudoScript.add_cmd, needs_to_run_append_nonskip]

/-- Witness for C1: the `CopyFile` scenario with a permission-denied
content write. -/
theorem install_perm_failure_defers_witness :
    (AbstractFile.install ⟨none, ⟨["/"]⟩⟩ ⟨none, some PyErr.permissionError, none⟩
        (InstFile.copyFile (PyPath.ofString "/out/a.txt") (PyPath.ofString "/in/a.txt") none)
        [] []).script
      = [⟨"mkdir -p /out\ncp -p /in/a.txt /out/a.txt", false, some "CopyFile:/out/a.txt"⟩]
    ∧ (AbstractFile.install ⟨none, ⟨["/"]⟩⟩ ⟨none, some PyErr.permissionError, none⟩
        (InstFile.copyFile (PyPath.ofString "/out/a.txt") (PyPath.ofString "/in/a.txt") none)
        [] []).script.needs_to_run = true := by
  have h := install_perm_failure_defers ⟨none, ⟨["/"]⟩⟩
    ⟨none, some PyErr.permissionError, none⟩
    (InstFile.copyFile (PyPath.ofString "/out/a.txt") (PyPath.ofString "/in/a.txt") none)
    [] [] (Or.inr (Or.inl ⟨rfl, rfl⟩))
  refine ⟨?_, h.1.2.2⟩
  rw [h.1.1]
  rw [h.2.1, h.2.2]
  rfl

/-- C10: the `except PermissionError` handler covers parent-directory
creation, the content write and the final chmod as one unit: whichever of
the three raises, exactly one non-skippable command carrying the full
shell fragment is appended and nothing propagates; content already
written (the chmod-failure case) stays on disk, and nothing has been
written when mkdir or the write itself failed. -/
theorem install_perm_failure_unit (e : Env) (o : InstallOutcome) (f : InstFile)
    (fs : FS) (sc : SudoScript) (h : o.permFailure) :
    (AbstractFile.install e o f fs sc).script
        = sc ++ [⟨shell_install e f, false, some f.commentText⟩]
    ∧ (AbstractFile.install e o f fs sc).err = none
    ∧ (o.mkdirErr = none → o.writeErr = none →
        fsRead (AbstractFile.install e o f fs sc).fs (chroot_dst e f).str
          = some ((f.installedText fs).getD ""))
    ∧ (o.mkdirErr = some PyErr.permissionError ∨ o.writeErr = some PyErr.permissionError →
        (AbstractFile.install e o f fs sc).fs = fs) := by
  rcases h with h1 | ⟨h1, h2⟩ | ⟨h1, h2, h3⟩
  · refine ⟨?_, ?_, ?_, ?_⟩ <;>
      simp [AbstractFile.install, h1, SudoScript.add_cmd]
  · refine ⟨?_, ?_, ?_, ?_⟩ <;>
      simp [AbstractFile.install, h1, h2, SudoScript.add_cmd]
  · refine ⟨?_, ?_, ?_, ?_⟩ <;>
      simp [AbstractFile.install, h1, h2, h3, SudoScript.add_cmd, fsRead_fsWrite_self]

/-- Witness for C10: chmod fails after the content write succeeded; the
written content is still on disk afterwards. -/
theorem install_perm_failure_unit_witness :
    (AbstractFile.install ⟨none, ⟨["/"]⟩⟩ ⟨none, none, some PyErr.permissionError⟩
        (InstFile.stringToFile (PyPath.ofString "/out/rules") "X\nY\n" none) [] []).err = none
    ∧ fsRead (AbstractFile.install ⟨none, ⟨["/"]⟩⟩ ⟨none, none, some PyErr.permissionError⟩
        (InstFile.stringToFile (PyPath.ofString "/out/rules") "X\nY\n" none) [] []).fs
        (chroot_dst ⟨none, ⟨["/"]⟩⟩
          (InstFile.stringToFile (PyPath.ofString "/out/rules") "X\nY\n" none)).str
      = some "X\nY\n" := by
  have h := install_perm_failure_unit ⟨none, ⟨["/"]⟩⟩ ⟨none, none, some PyErr.permissionError⟩
    (InstFile.stringToFile (PyPath.ofString "/out/rules") "X\nY\n" none) [] []
    (Or.inr (Or.inr ⟨rfl, rfl, rfl⟩))
  exact ⟨h.2.1, h.2.2.1 rfl rfl⟩

/-- C3: `_uninstall` deletes only the destination file, never parents:
on success exactly the destination entry disappears from the filesystem;
a missing file is not an error and records exactly one skippable
`rm -f <path>`; a permission failure records exactly one non-skippable
`rm -f <path>`; neither error case raises. -/
theorem uninstall_only_dst (e : Env) (permission_denied : Bool) (f : InstFile)
    (fs : FS) (sc : SudoScript) :
    (permission_denied = false →
      fsRead fs (chroot_dst e f).str ≠ none →
        AbstractFile.uninstall e permission_denied f fs sc
            = ⟨fsErase fs (chroot_dst e f).str, sc, none⟩
          ∧ fsRead (AbstractFile.uninstall e permission_denied f fs sc).fs
              (chroot_dst e f).str = none
          ∧ ∀ q : String, q ≠ (chroot_dst e f).str →
              fsRead (AbstractFile.uninstall e permission_denied f fs sc).fs q
                = fsRead fs q)
    ∧ (permission_denied = false →
        fsRead fs (chroot_dst e f).str = none →
          AbstractFile.uninstall e permission_denied f fs sc
            = ⟨fs, sc ++ [⟨"rm -f " ++ f.dst.str, true, some f.commentText⟩], none⟩)
    ∧ (permission_denied = true →
        AbstractFile.uninstall e permission_denied f fs sc
          = ⟨fs, sc ++ [⟨"rm -f " ++ f.dst.str, false, some f.commentText⟩], none⟩) := by
  refine ⟨?_, ?_, ?_⟩
  · intro hp hf
    have : AbstractFile.uninstall e permission_denied f fs sc
        = ⟨fsErase fs (chroot_dst e f).str, sc, none⟩ := by
      simp [AbstractFile.uninstall, AbstractFile.unlinkOutcome, hp, hf]
    refine ⟨this, ?_, ?_⟩
    · rw [this]
      exact fsRead_fsErase_self fs (chroot_dst e f).str
    · intro q hq
      rw [this]
      exact fsRead_fsErase_other fs (chroot_dst e f).str q hq
  · intro hp hf
    simp [AbstractFile.uninstall, AbstractFile.unlinkOutcome, hp, hf, SudoScript.add_cmd]
  · intro hp
    simp [AbstractFile.uninstall, AbstractFile.unlinkOutcome, hp, SudoScript.add_cmd]

/-- Witness for C3: deleting an existing file, a missing file, and a
permission-denied file at `/out/rules`. -/
theorem uninstall_only_dst_witness :
    (AbstractFile.uninstall ⟨none, ⟨["/"]⟩⟩ false
        (InstFile.stringToFile (PyPath.ofString "/out/rules") "X" none)
        [("/out/rules", "X"), ("/other", "Y")] []).fs = [("/other", "Y")]
    ∧ AbstractFile.uninstall ⟨none, ⟨["/"]⟩⟩ false
        (InstFile.stringToFile (PyPath.ofString "/out/rules") "X" none) [] []
      = ⟨[], [⟨"rm -f /out/rules", true, some "StringToFile:/out/rules"⟩], none⟩
    ∧ AbstractFile.uninstall ⟨none, ⟨["/"]⟩⟩ true
        (InstFile.stringToFile (PyPath.ofString "/out/rules") "X" none) [] []
      = ⟨[], [⟨"rm -f /out/rules", false, some "StringToFile:/out/rules"⟩], none⟩ := by
  refine ⟨?_, ?_, ?_⟩
  · have h := (uninstall_only_dst ⟨none, ⟨["/"]⟩⟩ false
      (InstFile.stringToFile (PyPath.ofString "/out/rules") "X" none)
      [("/out/rules", "X"), ("/other", "Y")] []).1 rfl (by decide)
    rw [h.1]
    decide
  · have h := (uninstall_only_dst ⟨none, ⟨["/"]⟩⟩ false
      (InstFile.stringToFile (PyPath.ofString "/out/rules") "X" none) [] []).2.1 rfl (by decide)
    rw [h]
    decide
  · have h := (uninstall_only_dst ⟨none, ⟨["/"]⟩⟩ true
      (InstFile.stringToFile (PyPath.ofString "/out/rules") "X" none) [] []).2.2 rfl
    rw [h]
    decide

/-- C8: the effective (chroot-remapped) destination is computed from the
active environment at each access and never cached at construction:
constructors store only the raw destination (the construction-time
environment is irrelevant to the constructed value), and `chroot_dst`
resolves through whatever `get_dirs().chroot` is current at the call, so
a changed chroot value between construction and execution wins. -/
theorem chroot_dst_uses_active_env (e1 e2 : Env) (dst src content : String)
    (comment : Option String) :
    (CopyFile.new e1 dst src comment = CopyFile.new e2 dst src comment)
    ∧ (StringToFile.new e1 dst content comment = StringToFile.new e2 dst content comment)
    ∧ chroot_dst e2 (CopyFile.new e1 dst src comment)
        = (match e2.chroot with
           | some c => if c = "" then PyPath.ofString dst
                       else PyPath.ofString (c ++ (PyPath.ofString dst).str)
           | none => PyPath.ofString dst)
    ∧ chroot_dst ⟨some "/new", ⟨["/"]⟩⟩
        (CopyFile.new ⟨some "/old", ⟨["/"]⟩⟩ "/out/a.txt" "/in/a.txt" none)
        = PyPath.ofString "/new/out/a.txt" := by
  refine ⟨rfl, rfl, ?_, by decide⟩
  rcases e2 with ⟨ch, cwd⟩
  cases ch <;> simp [chroot_dst, CopyFile.new, InstFile.dst]

/-- C5: the derived reload action is queued with
`skip_if = (new_content == old_content)`, a structural equality of the
path-to-text mappings; that equality holds on install exactly when the
destination already carried the new content (so a path appearing,
disappearing, or any text difference forces `skip_if = false`), and on
uninstall — where `new_content` is `old_content` minus the removed path —
exactly when the path was never present. -/
theorem udev_rules_diff_gate (u : UdevRules) (ids : String) (e : Env)
    (o : InstallOutcome) (permission_denied : Bool) (fs : FS) (sc : SudoScript) :
    ((AbstractFile.install e o u.file fs sc).err = none →
      (SetupUdevRules.install u ids e o fs sc).script
        = emit_code_for_rule_change ids (AbstractFile.install e o u.file fs sc).script
            (decide ([(u.udev_rules_dst, u.udev_rules_content)]
              = (match fsRead fs u.udev_rules_dst.str with
                 | some t => [(u.udev_rules_dst, t)]
                 | none => ([] : List (PyPath × String))))))
    ∧ (decide ([(u.udev_rules_dst, u.udev_rules_content)]
          = (match fsRead fs u.udev_rules_dst.str with
             | some t => [(u.udev_rules_dst, t)]
             | none => ([] : List (PyPath × String)))) = true
        ↔ fsRead fs u.udev_rules_dst.str = some u.udev_rules_content)
    ∧ ((AbstractFile.uninstall e permission_denied u.file fs sc).err = none →
      (SetupUdevRules.uninstall u ids e permission_denied fs sc).script
        = emit_code_for_rule_change ids
            (AbstractFile.uninstall e permission_denied u.file fs sc).script
            (decide ((match fsRead fs u.udev_rules_dst.str with
                      | some t => [(u.udev_rules_dst, t)]
                      | none => ([] : List (PyPath × String))).filter
                        (fun kv => kv.1 ≠ u.udev_rules_dst)
              = (match fsRead fs u.udev_rules_dst.str with
                 | some t => [(u.udev_rules_dst, t)]
                 | none => ([] : List (PyPath × String))))))
    ∧ (decide ((match fsRead fs u.udev_rules_dst.str with
                | some t => [(u.udev_rules_dst, t)]
                | none => ([] : List (PyPath × String))).filter
                  (fun kv => kv.1 ≠ u.udev_rules_dst)
          = (match fsRead fs u.udev_rules_dst.str with
             | some t => [(u.udev_rules_dst, t)]
             | none => ([] : List (PyPath × String)))) = true
        ↔ fsRead fs u.udev_rules_dst.str = none) := by
  refine ⟨?_, ?_, ?_, ?_⟩
  · intro h
    simp only [SetupUdevRules.install]
    rw [h]
  · cases hr : fsRead fs u.udev_rules_dst.str with
    | none => simp
    | some t => simp [eq_comm]
  · intro h
    simp only [SetupUdevRules.uninstall]
    rw [h]
  · cases hr : fsRead fs u.udev_rules_dst.str with
    | none => simp
    | some t => simp

set_option maxRecDepth 4096 in
/-- Witness for C5: installing fresh rules queues a live trigger,
uninstalling never-present rules queues a skippable one. -/
theorem udev_rules_diff_gate_witness :
    (SetupUdevRules.install ⟨PyPath.ofString "/etc/udev/rules.d/70-soundcraft-utils.rules", "X\n"⟩
        "05fc" ⟨none, ⟨["/"]⟩⟩ ⟨none, none, none⟩ [] []).script.getLast?
      = some ⟨triggerCmd "05fc", false,
          some "Trigger udev rules which run when adding existing mixer devices"⟩
    ∧ (SetupUdevRules.uninstall ⟨PyPath.ofString "/etc/udev/rules.d/70-soundcraft-utils.rules", "X\n"⟩
        "05fc" ⟨none, ⟨["/"]⟩⟩ false [] []).script.getLast?
      = some ⟨triggerCmd "05fc", true,
          some "Trigger udev rules which run when adding existing mixer devices"⟩ := by
  have h := udev_rules_diff_gate
    ⟨PyPath.ofString "/etc/udev/rules.d/70-soundcraft-utils.rules", "X\n"⟩
    "05fc" ⟨none, ⟨["/"]⟩⟩ ⟨none, none, none⟩ false [] []
  constructor
  · rw [h.1 (by decide)]
    decide
  · rw [h.2.2.1 (by decide)]
    decide

/-! ## Specification-side description of the rendered script (for C6) -/

/-- Per the specification: in a skipped block, every line of the command
is prefixed with `# `. -/
def specHashLines : List String → String
  | [] => ""
  | line :: rest => "# " ++ line ++ "\n" ++ specHashLines rest

/-- Per the specification, one command block: a blank line, an optional
`# <comment>` line, then the command verbatim if not skippable, or the
`# [command skipped (not required)]` marker plus every command line
prefixed with `# ` if skippable. -/
def specCommandText (c : ScriptCommand) : String :=
  "\n"
  ++ (match c.comment with
      | some t => if t = "" then "" else "# " ++ t ++ "\n"
      | none => "")
  ++ (if c.skip_if then
        "# [command skipped (not required)]\n" ++ specHashLines (pySplitlines c.cmd)
      else c.cmd ++ "\n")

/-- Per the specification, the blocks appear in append order, with no
re-sorting. -/
def specBlocks : List ScriptCommand → String
  | [] => ""
  | c :: rest => specCommandText c ++ specBlocks rest

/-- Per the specification, the whole script: `#!/bin/sh` shebang, an
explanatory header naming the installer program, then the command blocks
in append order, or a `# No commands to run.` placeholder when no
commands were ever added. -/
def specRender (exe : String) (cmds : List ScriptCommand) : String :=
  "#!/bin/sh\n"
  ++ ("# This script contains commands which " ++ exe ++ " could not run.\n")
  ++ "# You might have better luck running them manually, probably via sudo.\n"
  ++ (if cmds = [] then "\n# No commands to run.\n" else specBlocks cmds)

theorem str_ext {a b : String} (h : a.data = b.data) : a = b := by
  cases a
  cases b
  exact congrArg String.mk h

theorem foldl_hash_lines (lines : List String) (acc : String) :
    lines.foldl (fun a line => a ++ "# " ++ line ++ "\n") acc
      = acc ++ specHashLines lines := by
  induction lines generalizing acc with
  | nil =>
    apply str_ext
    simp [specHashLines, String.data_append]
  | cons l rest ih =>
    rw [List.foldl_cons, ih]
    apply str_ext
    simp [specHashLines, String.data_append]

theorem cmd_write_eq (c : ScriptCommand) (acc : String) :
    c.write acc = acc ++ specCommandText c := by
  rcases c with ⟨cmd, skip, cmt⟩
  cases skip
  · cases cmt with
    | none =>
      apply str_ext
      simp [ScriptCommand.write, specCommandText, pyTruthy, String.data_append]
    | some t =>
      by_cases ht : t = ""
      · subst ht
        apply str_ext
        simp [ScriptCommand.write, specCommandText, pyTruthy, String.data_append]
      · apply str_ext
        simp [ScriptCommand.write, specCommandText, pyTruthy, ht, String.data_append]
  · cases cmt with
    | none =>
      apply str_ext
      simp [ScriptCommand.write, specCommandText, pyTruthy, foldl_hash_lines,
        String.data_append]
    | some t =>
      by_cases ht : t = ""
      · subst ht
        apply str_ext
        simp [ScriptCommand.write, specCommandText, pyTruthy, foldl_hash_lines,
          String.data_append]
      · apply str_ext
        simp [ScriptCommand.write, specCommandText, pyTruthy, ht, foldl_hash_lines,
          String.data_append]

theorem foldl_blocks (cmds : List ScriptCommand) (acc : String) :
    cmds.foldl (fun a c => c.write a) acc = acc ++ specBlocks cmds := by
  induction cmds generalizing acc with
  | nil =>
    apply str_ext
    simp [specBlocks, String.data_append]
  | cons c rest ih =>
    rw [List.foldl_cons, ih, cmd_write_eq]
    apply str_ext
    simp [specBlocks, String.data_append]

/-- C6: `SudoScript.write` renders exactly as the specification states:
shebang, explanatory header naming the installer program, then for every
command in append order a blank line, an optional comment line, and
either the verbatim command or the skip marker plus `# `-prefixed lines;
with a `# No commands to run.` placeholder when no command was added. -/
theorem sudo_script_render (exe : String) (cmds : SudoScript) (file : String) :
    SudoScript.write exe cmds file = file ++ specRender exe cmds := by
  cases cmds with
  | nil =>
    apply str_ext
    simp [SudoScript.write, specRender, specBlocks, String.data_append]
  | cons c rest =>
    have h1 : SudoScript.write exe (c :: rest) file
        = (c :: rest).foldl (fun acc cc => cc.write acc)
            (file ++ "#!/bin/sh\n"
              ++ "# This script contains commands which " ++ exe ++ " could not run.\n"
              ++ "# You might have better luck running them manually, probably via sudo.\n") := by
      have hlen : (c :: rest).length > 0 := by simp
      simp only [SudoScript.write, if_pos hlen]
    rw [h1, foldl_blocks]
    apply str_ext
    simp [specRender, String.data_append]

/-! ## Template substitution facts (for C7) -/

theorem takeWhile_append_brace (l r : List Char) (hl : ∀ c ∈ l, isIdChar c = true) :
    (l ++ '}' :: r).takeWhile isIdChar = l
      ∧ (l ++ '}' :: r).dropWhile isIdChar = '}' :: r := by
  induction l with
  | nil =>
    constructor <;> simp [List.takeWhile, List.dropWhile, show isIdChar (Char.ofNat 125) = false from rfl]
  | cons c l ih =>
    have hc : isIdChar c = true := hl c (by simp)
    have hrest := ih (fun x hx => hl x (by simp [hx]))
    constructor
    · simp [List.takeWhile_cons, hc, hrest.1]
    · simp [List.dropWhile_cons, hc, hrest.2]

theorem substAux_braced_missing (m : List (String × String)) (fuel : Nat)
    (nm : List Char) (r : List Char) (h1 : nm ≠ [])
    (h2 : ∀ c ∈ nm, isIdChar c = true) (h3 : isIdStart (nm.headD ' ') = true)
    (hmiss : lookupStr (String.mk nm) m = none) :
    substAux m (fuel + 1) ('$' :: '{' :: (nm ++ '}' :: r))
      = Except.error (SubstErr.keyError (String.mk nm)) := by
  have ht := takeWhile_append_brace nm r h2
  simp only [substAux, ht.1, ht.2, hmiss, h1, h3, ne_eq, not_false_eq_true]
  simp

/-- C7: a `TemplateFile` substitutes the placeholders resolved by the
supplied mapping: over source text `"Exec=${name}\n"` with mapping
`{"name": "svc"}` the constructed content is `"Exec=svc\n"`, and
installing it writes exactly that content to the destination; a
placeholder missing from the mapping makes `substitute` fail fast with a
`KeyError` instead of being skipped. -/
theorem template_substitutes_and_fails_fast (name : String)
    (m : List (String × String)) (h1 : name.data ≠ [])
    (h2 : ∀ c ∈ name.data, isIdChar c = true)
    (h3 : isIdStart (name.data.headD ' ') = true)
    (hmiss : lookupStr name m = none) :
    substitute ("$\x7b" ++ name ++ "\x7d") m
      = Except.error (SubstErr.keyError name)
    ∧ TemplateFile.new ⟨none, ⟨["/"]⟩⟩ "/apps/svc.service" "/src/svc.tmpl"
        "Exec=$\x7bname\x7d\n" [("name", "svc")] none
      = Except.ok (InstFile.templateFile (PyPath.ofString "/apps/svc.service")
          (PyPath.ofString "/src/svc.tmpl") "Exec=svc\n" none)
    ∧ fsRead (AbstractFile.install ⟨none, ⟨["/"]⟩⟩ ⟨none, none, none⟩
          (InstFile.templateFile (PyPath.ofString "/apps/svc.service")
            (PyPath.ofString "/src/svc.tmpl") "Exec=svc\n" none) [] []).fs
        "/apps/svc.service"
      = some "Exec=svc\n" := by
  refine ⟨?_, rfl, by decide⟩
  have hd : ("$\x7b" ++ name ++ "\x7d").data = '$' :: '{' :: (name.data ++ '}' :: []) := by
    simp [String.data_append]
  have hmk : String.mk name.data = name := rfl
  unfold substitute
  rw [hd]
  rw [substAux_braced_missing m (('$' :: '{' :: (name.data ++ '}' :: [])).length) name.data
    [] h1 h2 h3 (by rw [hmk]; exact hmiss)]

/-- Witness for C7: the placeholder `name` against the empty mapping. -/
theorem template_substitutes_and_fails_fast_witness :
    substitute ("$\x7b" ++ "name" ++ "\x7d") [] = Except.error (SubstErr.keyError "name")
    ∧ fsRead (AbstractFile.install ⟨none, ⟨["/"]⟩⟩ ⟨none, none, none⟩
          (InstFile.templateFile (PyPath.ofString "/apps/svc.service")
            (PyPath.ofString "/src/svc.tmpl") "Exec=svc\n" none) [] []).fs
        "/apps/svc.service"
      = some "Exec=svc\n" := by
  have h := template_substitutes_and_fails_fast "name" [] (by decide) (by decide)
    (by decide) rfl
  exact ⟨h.1, h.2.2⟩

/-! ## Decimal-digit arithmetic (for C9)

Facts connecting `pad8`/`int_as_str` with the numeric value of a digit
run: a digit run of at most eight digits is padded to exactly eight
characters, on which Python's string comparison coincides with numeric
comparison. -/

theorem ofDigitsBE_acc (l : List Nat) (a : Nat) :
    l.foldl (fun x d => 10 * x + d) a = a * 10 ^ l.length + ofDigitsBE l := by
  induction l generalizing a with
  | nil => simp [ofDigitsBE]
  | cons d l ih =>
    have h1 : List.foldl (fun x d => 10 * x + d) a (d :: l)
        = List.foldl (fun x d => 10 * x + d) (10 * a + d) l := rfl
    have h2 : ofDigitsBE (d :: l)
        = List.foldl (fun x d => 10 * x + d) (10 * 0 + d) l := rfl
    rw [h1, ih, h2, ih, List.length_cons]
    ring

theorem ofDigitsBE_cons (d : Nat) (l : List Nat) :
    ofDigitsBE (d :: l) = d * 10 ^ l.length + ofDigitsBE l := by
  have h2 : ofDigitsBE (d :: l)
      = List.foldl (fun x d => 10 * x + d) (10 * 0 + d) l := rfl
  rw [h2, ofDigitsBE_acc]
  ring

theorem ofDigitsBE_append_singleton (l : List Nat) (d : Nat) :
    ofDigitsBE (l ++ [d]) = 10 * ofDigitsBE l + d := by
  have h : ofDigitsBE (l ++ [d])
      = List.foldl (fun x d => 10 * x + d) 0 (l ++ [d]) := rfl
  rw [h, List.foldl_append]
  rfl

theorem ofDigitsBE_lt_pow (l : List Nat) (h : ∀ d ∈ l, d < 10) :
    ofDigitsBE l < 10 ^ l.length := by
  induction l with
  | nil => simp [ofDigitsBE]
  | cons d t ih =>
    have hd : d < 10 := h d (by simp)
    have ht := ih (fun x hx => h x (by simp [hx]))
    rw [ofDigitsBE_cons, List.length_cons]
    calc d * 10 ^ t.length + ofDigitsBE t
        < d * 10 ^ t.length + 10 ^ t.length := by omega
      _ = (d + 1) * 10 ^ t.length := by ring
      _ ≤ 10 * 10 ^ t.length := Nat.mul_le_mul_right _ (by omega)
      _ = 10 ^ (t.length + 1) := by ring

theorem ofDigitsBE_replicate_zero (k : Nat) (l : List Nat) :
    ofDigitsBE (List.replicate k 0 ++ l) = ofDigitsBE l := by
  induction k with
  | zero => simp
  | succ k ih =>
    have hr : List.replicate (k + 1) 0 ++ l = 0 :: (List.replicate k 0 ++ l) := by
      simp [List.replicate_succ]
    have h0 : ofDigitsBE (0 :: (List.replicate k 0 ++ l))
        = ofDigitsBE (List.replicate k 0 ++ l) := rfl
    rw [hr, h0, ih]

theorem decDigits_val (fuel : Nat) : ∀ n : Nat, n ≤ fuel →
    ofDigitsBE (decDigits fuel n) = n := by
  induction fuel with
  | zero =>
    intro n h
    have hn : n = 0 := by omega
    subst hn
    rfl
  | succ fuel ih =>
    intro n h
    by_cases hn : n = 0
    · subst hn
      rfl
    · have hrec : n / 10 ≤ fuel := by
        have := Nat.div_lt_self (Nat.pos_of_ne_zero hn) (by omega : 1 < 10)
        omega
      have hd : decDigits (fuel + 1) n = decDigits fuel (n / 10) ++ [n % 10] := by
        simp [decDigits, hn]
      rw [hd, ofDigitsBE_append_singleton, ih (n / 10) hrec]
      exact Nat.div_add_mod n 10

theorem decDigits_lt_ten (fuel : Nat) : ∀ n : Nat, ∀ d ∈ decDigits fuel n, d < 10 := by
  induction fuel with
  | zero =>
    intro n d hd
    simp [decDigits] at hd
  | succ fuel ih =>
    intro n d hd
    by_cases hn : n = 0
    · simp [decDigits, hn] at hd
    · simp [decDigits, hn, List.mem_append] at hd
      rcases hd with hd | hd
      · exact ih (n / 10) d hd
      · have := Nat.mod_lt n (show 0 < 10 by omega)
        omega

theorem decDigits_length_le (fuel : Nat) : ∀ n k : Nat, n ≤ fuel → n < 10 ^ k →
    (decDigits fuel n).length ≤ k := by
  induction fuel with
  | zero =>
    intro n k _ _
    simp [decDigits]
  | succ fuel ih =>
    intro n k hf hk
    by_cases hn : n = 0
    · simp [decDigits, hn]
    · cases k with
      | zero =>
        simp at hk
        omega
      | succ k =>
        have hrec : n / 10 ≤ fuel := by
          have := Nat.div_lt_self (Nat.pos_of_ne_zero hn) (by omega : 1 < 10)
          omega
        have hdiv : n / 10 < 10 ^ k := by
          rw [Nat.div_lt_iff_lt_mul (by omega : 0 < 10)]
          calc n < 10 ^ (k + 1) := hk
            _ = 10 ^ k * 10 := by ring
        have hlen := ih (n / 10) k hrec hdiv
        simp [decDigits, hn, List.length_append]
        omega

theorem digitChar_spec : ∀ d : Nat, d < 10 →
    charVal (digitChar d) = d ∧ (digitChar d).isDigit = true := by decide

theorem isDigit_bounds (c : Char) (h : c.isDigit = true) :
    48 ≤ c.toNat ∧ c.toNat ≤ 57 := by
  simp [Char.isDigit] at h
  obtain ⟨h1, h2⟩ := h
  exact ⟨h1, h2⟩

theorem charVal_lt_ten (c : Char) (h : c.isDigit = true) : charVal c < 10 := by
  have := isDigit_bounds c h
  unfold charVal
  omega

theorem lex_digit_lists : ∀ (l1 l2 : List Char), l1.length = l2.length →
    (∀ c ∈ l1, c.isDigit = true) → (∀ c ∈ l2, c.isDigit = true) →
    (lexLt pyCharLt l1 l2 = true
      ↔ ofDigitsBE (l1.map charVal) < ofDigitsBE (l2.map charVal))
  | [], [] => by
    intro _ _ _
    simp [lexLt]
  | [], _ :: _ => by
    intro h
    exact absurd h (by simp)
  | _ :: _, [] => by
    intro h
    exact absurd h (by simp)
  | c :: cs, d :: ds => by
    intro hlen hd1 hd2
    have hlen2 : cs.length = ds.length := by simpa using hlen
    have hc : c.isDigit = true := hd1 c (by simp)
    have hd : d.isDigit = true := hd2 d (by simp)
    have hcs : ∀ x ∈ cs, x.isDigit = true := fun x hx => hd1 x (by simp [hx])
    have hds : ∀ x ∈ ds, x.isDigit = true := fun x hx => hd2 x (by simp [hx])
    have hv1 : ofDigitsBE ((c :: cs).map charVal)
        = charVal c * 10 ^ cs.length + ofDigitsBE (cs.map charVal) := by
      rw [List.map_cons, ofDigitsBE_cons, List.length_map]
    have hv2 : ofDigitsBE ((d :: ds).map charVal)
        = charVal d * 10 ^ ds.length + ofDigitsBE (ds.map charVal) := by
      rw [List.map_cons, ofDigitsBE_cons, List.length_map]
    have hb1 : ofDigitsBE (cs.map charVal) < 10 ^ cs.length := by
      have := ofDigitsBE_lt_pow (cs.map charVal) (by
        intro x hx
        rcases List.mem_map.mp hx with ⟨y, hy, rfl⟩
        exact charVal_lt_ten y (hcs y hy))
      rwa [List.length_map] at this
    have hb2 : ofDigitsBE (ds.map charVal) < 10 ^ ds.length := by
      have := ofDigitsBE_lt_pow (ds.map charVal) (by
        intro x hx
        rcases List.mem_map.mp hx with ⟨y, hy, rfl⟩
        exact charVal_lt_ten y (hds y hy))
      rwa [List.length_map] at this
    by_cases hcd : c = d
    · subst hcd
      have ih := lex_digit_lists cs ds hlen2 hcs hds
      rw [hv1, hv2, hlen2]
      have hstep : lexLt pyCharLt (c :: cs) (c :: ds) = lexLt pyCharLt cs ds := by
        simp [lexLt]
      rw [hstep, ih]
      omega
    · have hbc := isDigit_bounds c hc
      have hbd := isDigit_bounds d hd
      have hne : c.toNat ≠ d.toNat := fun e => hcd (char_toNat_inj e)
      rw [hv1, hv2]
      simp only [lexLt, if_neg hcd]
      rcases Nat.lt_or_ge c.toNat d.toNat with hlt | hge
      · have hvlt : charVal c < charVal d := by
          unfold charVal
          omega
        have : charVal c * 10 ^ cs.length + ofDigitsBE (cs.map charVal)
            < charVal d * 10 ^ ds.length + ofDigitsBE (ds.map charVal) := by
          calc charVal c * 10 ^ cs.length + ofDigitsBE (cs.map charVal)
              < (charVal c + 1) * 10 ^ cs.length := by
                have := hb1
                ring_nf
                omega
            _ ≤ charVal d * 10 ^ ds.length := by
                rw [hlen2]
                exact Nat.mul_le_mul_right _ (by omega)
            _ ≤ charVal d * 10 ^ ds.length + ofDigitsBE (ds.map charVal) := by omega
        simp [pyCharLt, hlt, this]
      · have hgt : d.toNat < c.toNat := by omega
        have hvgt : charVal d < charVal c := by
          unfold charVal
          omega
        have : charVal d * 10 ^ ds.length + ofDigitsBE (ds.map charVal)
            < charVal c * 10 ^ cs.length + ofDigitsBE (cs.map charVal) := by
          calc charVal d * 10 ^ ds.length + ofDigitsBE (ds.map charVal)
              < (charVal d + 1) * 10 ^ ds.length := by
                have := hb2
                ring_nf
                omega
            _ ≤ charVal c * 10 ^ cs.length := by
                rw [hlen2]
                exact Nat.mul_le_mul_right _ (by omega)
            _ ≤ charVal c * 10 ^ cs.length + ofDigitsBE (cs.map charVal) := by omega
        have hns : ¬ c.toNat < d.toNat := by omega
        simp [pyCharLt, hns]
        omega

theorem pad8_spec (n : Nat) (h : n < 10 ^ 8) :
    (pad8 n).data.length = 8
    ∧ (∀ c ∈ (pad8 n).data, c.isDigit = true)
    ∧ ofDigitsBE ((pad8 n).data.map charVal) = n := by
  have hval := decDigits_val n n (le_refl n)
  have hlt10 := decDigits_lt_ten n n
  have hlen := decDigits_length_le n n 8 (le_refl n) h
  have hdata : (pad8 n).data
      = List.replicate (8 - ((decDigits n n).map digitChar).length) '0'
          ++ (decDigits n n).map digitChar := rfl
  refine ⟨?_, ?_, ?_⟩
  · rw [hdata]
    simp only [List.length_append, List.length_replicate, List.length_map]
    omega
  · rw [hdata]
    intro c hc
    rcases List.mem_append.mp hc with hc | hc
    · have : c = '0' := List.eq_of_mem_replicate hc
      subst this
      rfl
    · rcases List.mem_map.mp hc with ⟨y, hy, rfl⟩
      exact (digitChar_spec y (hlt10 y hy)).2
  · rw [hdata, List.map_append, List.map_replicate]
    have h0 : charVal '0' = 0 := rfl
    rw [h0, ofDigitsBE_replicate_zero]
    have hmm : ((decDigits n n).map digitChar).map charVal = decDigits n n := by
      rw [List.map_map]
      have : ∀ x ∈ decDigits n n, (charVal ∘ digitChar) x = id x := by
        intro x hx
        exact (digitChar_spec x (hlt10 x hx)).1
      rw [List.map_congr_left this, List.map_id]
    rw [hmm, hval]

theorem pad8_lt_iff (n1 n2 : Nat) (h1 : n1 < 10 ^ 8) (h2 : n2 < 10 ^ 8) :
    (pyStrLt (pad8 n1) (pad8 n2) = true ↔ n1 < n2) := by
  have s1 := pad8_spec n1 h1
  have s2 := pad8_spec n2 h2
  have hl := lex_digit_lists (pad8 n1).data (pad8 n2).data
    (by rw [s1.1, s2.1]) s1.2.1 s2.2.1
  rw [s1.2.2, s2.2.2] at hl
  exact hl

theorem pyInt_digit_run (t : String) (h1 : t ≠ "") (hd : t.data.all Char.isDigit = true) :
    pyInt t = some (ofDigitsBE (t.data.map charVal)) := by
  simp [pyInt, h1, hd]

/-- C9: `int_as_str` pads digit runs to a fixed width of eight digits, so
numeric-aware ordering is only guaranteed up to eight digits: for digit
runs of at most eight digits the padded strings compare exactly as the
numeric values do, while for the paths `/a/file100000000` and
`/a/file20000000` — digit runs longer than eight digits of different
lengths — the numerically larger run (100000000 > 20000000) sorts first
because the comparison degrades to plain string comparison. -/
theorem int_as_str_eight_digit_window (t1 t2 : String)
    (h1 : t1 ≠ "") (h1d : t1.data.all Char.isDigit = true) (h1l : t1.data.length ≤ 8)
    (h2 : t2 ≠ "") (h2d : t2.data.all Char.isDigit = true) (h2l : t2.data.length ≤ 8) :
    (pyStrLt (int_as_str t1) (int_as_str t2) = true
      ↔ ofDigitsBE (t1.data.map charVal) < ofDigitsBE (t2.data.map charVal))
    ∧ keyLt
        (destfile_key (InstFile.stringToFile (PyPath.ofString "/a/file100000000") "" none))
        (destfile_key (InstFile.stringToFile (PyPath.ofString "/a/file20000000") "" none))
      = true
    ∧ ofDigitsBE ("20000000".data.map charVal)
        < ofDigitsBE ("100000000".data.map charVal) := by
  refine ⟨?_, by decide, by decide⟩
  have hv1 : ofDigitsBE (t1.data.map charVal) < 10 ^ 8 := by
    have hb : ofDigitsBE (t1.data.map charVal) < 10 ^ (t1.data.map charVal).length := by
      apply ofDigitsBE_lt_pow
      intro x hx
      rcases List.mem_map.mp hx with ⟨y, hy, rfl⟩
      exact charVal_lt_ten y (by
        have := List.all_eq_true.mp h1d y hy
        simpa using this)
    calc ofDigitsBE (t1.data.map charVal) < 10 ^ (t1.data.map charVal).length := hb
      _ ≤ 10 ^ 8 := Nat.pow_le_pow_right (by omega) (by
          rw [List.length_map]
          exact h1l)
  have hv2 : ofDigitsBE (t2.data.map charVal) < 10 ^ 8 := by
    have hb : ofDigitsBE (t2.data.map charVal) < 10 ^ (t2.data.map charVal).length := by
      apply ofDigitsBE_lt_pow
      intro x hx
      rcases List.mem_map.mp hx with ⟨y, hy, rfl⟩
      exact charVal_lt_ten y (by
        have := List.all_eq_true.mp h2d y hy
        simpa using this)
    calc ofDigitsBE (t2.data.map charVal) < 10 ^ (t2.data.map charVal).length := hb
      _ ≤ 10 ^ 8 := Nat.pow_le_pow_right (by omega) (by
          rw [List.length_map]
          exact h2l)
  rw [int_as_str, int_as_str, pyInt_digit_run t1 h1 h1d, pyInt_digit_run t2 h2 h2d]
  exact pad8_lt_iff _ _ hv1 hv2

/-- Witness for C9: the two-digit window comparison `2 < 13` after
padding, and the concrete degradation example. -/
theorem int_as_str_eight_digit_window_witness :
    pyStrLt (int_as_str "2") (int_as_str "13") = true
    ∧ keyLt
        (destfile_key (InstFile.stringToFile (PyPath.ofString "/a/file100000000") "" none))
        (destfile_key (InstFile.stringToFile (PyPath.ofString "/a/file20000000") "" none))
      = true := by
  have h := int_as_str_eight_digit_window "2" "13" (by decide) (by decide) (by decide)
    (by decide) (by decide) (by decide)
  exact ⟨h.1.mpr (by decide), h.2.1⟩

end Soundcraft
